import Mathlib

/-!
Shallow embedding of `src/audio/SDL_audioresample.c` (SDL's bandlimited
audio resampler) together with proofs about its planning arithmetic, its
scalar convolution kernels, its driver loop and its filter bank
construction.

Modelling conventions:

* C `Sint64` values are modelled as `Int`; the places where the C code
  narrows or masks (`(Sint32)` casts, `>> 32`, `& 0xFFFFFFFF`) are made
  explicit.  C `>>` on a signed value is an arithmetic shift, i.e. floor
  division by a power of two; `Int` division `/` is Euclidean division,
  which coincides with floor division for a positive divisor.  C `/` on
  `Sint64` truncates toward zero and is modelled by `Int.tdiv`.
* The saturation helpers `ResamplerAdd` / `ResamplerMul` return `-1`
  without writing `*ret` on their guarded overflow; this is modelled by
  `Option Int` (`none` = overflow reported).
* Single-precision float values and operations are kept abstract: the
  kernels are parametrised by an arbitrary carrier `α` with uninterpreted
  `add`, `mul`, `sub`, `zero`, `one` (structure `FloatOps`), so every
  theorem about them holds for the IEEE binary32 interpretation in
  particular, and an equality between results is an equality of the
  evaluated expression trees: the same operations applied in the same
  order.
-/

namespace SDLAudio

/-- SDL_MAX_SINT64: the largest `Sint64` value, `2^63 - 1`. -/
def SDL_MAX_SINT64 : Int := 9223372036854775807

/-- Model of the C cast `(Sint64)(Sint32)x`: wrap into the signed 32-bit
range `[-2^31, 2^31)`. -/
def toSint32 (x : Int) : Int := (x + 2147483648) % 4294967296 - 2147483648

/-- Model of the C expression `x >> 32` on a `Sint64`: an arithmetic right
shift, i.e. floor division by `2^32` (Euclidean `/` coincides with floor
division because the divisor is positive). -/
def shr32 (x : Int) : Int := x / 4294967296

/-- Model of the C expression `(Uint32)(x & 0xFFFFFFFF)`: the low 32 bits
of the two's complement representation, as a natural number. -/
def low32 (x : Int) : Nat := (x % 4294967296).toNat

/-- ResamplerAdd: checked add.  The C code returns `-1` (modelled `none`)
when `(b > 0) && (a > SDL_MAX_SINT64 - b)` and otherwise stores `a + b`. -/
def ResamplerAdd (a b : Int) : Option Int :=
  if 0 < b ∧ SDL_MAX_SINT64 - b < a then none else some (a + b)

/-- ResamplerMul: checked multiply.  The C code returns `-1` (modelled
`none`) when `(b > 0) && (a > SDL_MAX_SINT64 / b)` — C `/` truncates, so
`Int.tdiv` — and otherwise stores `a * b`. -/
def ResamplerMul (a b : Int) : Option Int :=
  if 0 < b ∧ SDL_MAX_SINT64.tdiv b < a then none else some (a * b)

/-- The `output_offset` local of `SDL_GetResamplerInputFrames`: the value
after `ResamplerMul(output_frames, resample_rate, &output_offset) ||
ResamplerAdd(output_offset, -resample_rate + resample_offset + 0x100000000,
&output_offset)`, where reported overflow in either step replaces it by
`SDL_MAX_SINT64` (the second step is short-circuited when the first
reports overflow). -/
def inputFramesOffset (output_frames resample_rate resample_offset : Int) : Int :=
  match ResamplerMul output_frames resample_rate with
  | none => SDL_MAX_SINT64
  | some m =>
    match ResamplerAdd m (-resample_rate + resample_offset + 4294967296) with
    | none => SDL_MAX_SINT64
    | some s => s

/-- SDL_GetResamplerInputFrames: computes `output_offset` (see
`inputFramesOffset`), then
`input_frames = (Sint64)(Sint32)(output_offset >> 32)` and finally
`SDL_max(input_frames, 0)`. -/
def SDL_GetResamplerInputFrames (output_frames resample_rate resample_offset : Int) : Int :=
  max (toSint32 (shr32 (inputFramesOffset output_frames resample_rate resample_offset))) 0

/-- The `input_offset` local of `SDL_GetResamplerOutputFrames`: the value
after `ResamplerMul(input_frames, 0x100000000, &input_offset) ||
ResamplerAdd(input_offset, -resample_offset, &input_offset)`, with
reported overflow in either step replacing it by `SDL_MAX_SINT64`. -/
def outputFramesOffset (input_frames resample_offset : Int) : Int :=
  match ResamplerMul input_frames 4294967296 with
  | none => SDL_MAX_SINT64
  | some m =>
    match ResamplerAdd m (-resample_offset) with
    | none => SDL_MAX_SINT64
    | some s => s

/-- SDL_GetResamplerOutputFrames: with `input_offset` as in
`outputFramesOffset`, returns
`output_frames = (input_offset > 0) ? ((input_offset - 1) / resample_rate + 1) : 0`
(C truncating division) and stores
`output_frames * resample_rate - input_offset` into
`*inout_resample_offset`; the pair is `(return value, stored offset)`. -/
def SDL_GetResamplerOutputFrames (input_frames resample_rate resample_offset : Int) :
    Int × Int :=
  let input_offset := outputFramesOffset input_frames resample_offset
  let output_frames :=
    if 0 < input_offset then (input_offset - 1).tdiv resample_rate + 1 else 0
  (output_frames, output_frames * resample_rate - input_offset)

-- Basic facts about the narrowing cast.

theorem toSint32_lb (x : Int) : -2147483648 ≤ toSint32 x := by
  unfold toSint32; omega

theorem toSint32_ub (x : Int) : toSint32 x < 2147483648 := by
  unfold toSint32; omega

theorem toSint32_eq_self {x : Int} (h1 : -2147483648 ≤ x) (h2 : x < 2147483648) :
    toSint32 x = x := by
  unfold toSint32; omega

-- Success conditions for the checked helpers.

theorem ResamplerMul_eq_some {a b : Int} (hb : 0 < b) (h : a * b ≤ SDL_MAX_SINT64) :
    ResamplerMul a b = some (a * b) := by
  unfold ResamplerMul
  rw [if_neg]
  rintro ⟨-, hlt⟩
  rw [Int.tdiv_eq_ediv (by unfold SDL_MAX_SINT64; omega) (le_of_lt hb)] at hlt
  exact absurd ((Int.le_ediv_iff_mul_le hb).mpr h) (not_le.mpr hlt)

theorem ResamplerAdd_eq_some {a b : Int} (h : a + b ≤ SDL_MAX_SINT64) :
    ResamplerAdd a b = some (a + b) := by
  unfold ResamplerAdd
  rw [if_neg]
  rintro ⟨hb, hlt⟩
  omega

/-- When neither step of `SDL_GetResamplerInputFrames` reports overflow,
`output_offset` is the exact sum
`N * rate + (-rate + offset + 2^32)`. -/
theorem inputFramesOffset_eq {N rate off : Int} (hrate : 0 < rate)
    (hm : N * rate ≤ SDL_MAX_SINT64)
    (ha : N * rate + (-rate + off + 4294967296) ≤ SDL_MAX_SINT64) :
    inputFramesOffset N rate off = N * rate + (-rate + off + 4294967296) := by
  unfold inputFramesOffset
  simp only [ResamplerMul_eq_some hrate hm, ResamplerAdd_eq_some ha]

theorem inputFrames_range_aux (N rate off : Int) :
    0 ≤ SDL_GetResamplerInputFrames N rate off ∧
      SDL_GetResamplerInputFrames N rate off ≤ 2147483647 := by
  unfold SDL_GetResamplerInputFrames
  have h1 := toSint32_lb (shr32 (inputFramesOffset N rate off))
  have h2 := toSint32_ub (shr32 (inputFramesOffset N rate off))
  constructor
  · exact le_max_right _ 0
  · apply max_le <;> omega

/-- C10: for all arguments, the value returned by
`SDL_GetResamplerInputFrames` lies in `[0, 2^31 - 1]`: the shifted
intermediate is narrowed through the signed 32-bit cast before the lower
clamp to zero, so the result never exceeds `INT32_MAX` regardless of
saturation. -/
theorem SDL_GetResamplerInputFrames_range (N rate off : Int) :
    0 ≤ SDL_GetResamplerInputFrames N rate off ∧
      SDL_GetResamplerInputFrames N rate off ≤ 2147483647 :=
  inputFrames_range_aux N rate off

/-- C6 counterexample: with `output_frames = INT64_MAX/2 = 2^62 - 1`,
`resample_rate = 2^32` and `resample_offset = 0`, the multiply saturates,
but the saturated intermediate is then narrowed through the `(Sint32)`
cast, so the function does NOT return `INT64_MAX`. -/
theorem inputFrames_overflow_not_int64max :
    ¬ (SDL_GetResamplerInputFrames 4611686018427387903 4294967296 0
        = 9223372036854775807) := by decide

/-- C6 (amended): with `output_frames = INT64_MAX/2`, `resample_rate =
2^32` and `resample_offset = 0`, the function returns `INT32_MAX =
2147483647` rather than wrapping: the intermediate saturates to
`INT64_MAX`, whose shifted value is narrowed by the `(Sint32)` cast to
`2^31 - 1` and survives the lower clamp at zero. -/
theorem inputFrames_overflow_saturates_int32max :
    SDL_GetResamplerInputFrames 4611686018427387903 4294967296 0 = 2147483647 := by
  decide

/-- C4 counterexample: at `N = 1, rate = 2^32, offset = 0` the function
returns `1`, while the claimed formula
`max(0, ((N - 1)*rate + offset + (2^32 - rate)) >> 32)` evaluates to `0`:
the claimed formula subtracts `rate` one time too many. -/
theorem inputFrames_formula_claim_false :
    ¬ (SDL_GetResamplerInputFrames 1 4294967296 0
        = max 0 (shr32 ((1 - 1) * 4294967296 + 0 + (4294967296 - 4294967296)))) := by
  decide

/-- C4 (amended): for every `N ≥ 1`, `rate > 0` and `Sint64` offset for
which neither the multiply nor the add saturates,
`SDL_GetResamplerInputFrames` returns
`max(0, ((N - 1)*rate + offset + 2^32) >> 32)` where `>>` is the
arithmetic (floor) shift, and the result is clamped below at zero. -/
theorem SDL_GetResamplerInputFrames_formula (N rate off : Int)
    (hN : 1 ≤ N) (hrate : 0 < rate) (hoff : -9223372036854775808 ≤ off)
    (hm : N * rate ≤ SDL_MAX_SINT64)
    (ha : N * rate + (-rate + off + 4294967296) ≤ SDL_MAX_SINT64) :
    SDL_GetResamplerInputFrames N rate off
        = max 0 (shr32 ((N - 1) * rate + off + 4294967296)) ∧
      0 ≤ SDL_GetResamplerInputFrames N rate off := by
  have hS : inputFramesOffset N rate off = (N - 1) * rate + off + 4294967296 := by
    rw [inputFramesOffset_eq hrate hm ha]; ring
  have hmul : 0 ≤ (N - 1) * rate := mul_nonneg (by omega) (le_of_lt hrate)
  have hup : (N - 1) * rate + off + 4294967296 ≤ SDL_MAX_SINT64 := by
    have : N * rate + (-rate + off + 4294967296) = (N - 1) * rate + off + 4294967296 := by
      ring
    omega
  have hcast : toSint32 (shr32 ((N - 1) * rate + off + 4294967296))
      = shr32 ((N - 1) * rate + off + 4294967296) := by
    apply toSint32_eq_self <;>
      · unfold shr32
        unfold SDL_MAX_SINT64 at hup
        omega
  constructor
  · unfold SDL_GetResamplerInputFrames
    rw [hS, hcast, max_comm]
  · exact (inputFrames_range_aux N rate off).1

/-- Witness for `SDL_GetResamplerInputFrames_formula` at
`N = 2, rate = 3, offset = 0`. -/
theorem SDL_GetResamplerInputFrames_formula_witness :
    SDL_GetResamplerInputFrames 2 3 0
        = max 0 (shr32 ((2 - 1) * 3 + 0 + 4294967296)) ∧
      0 ≤ SDL_GetResamplerInputFrames 2 3 0 :=
  SDL_GetResamplerInputFrames_formula 2 3 0 (by decide) (by decide) (by decide)
    (by decide) (by decide)

-- Projections of `SDL_GetResamplerOutputFrames` (definitional).

theorem outputFrames_fst (M rate off : Int) :
    (SDL_GetResamplerOutputFrames M rate off).1
      = if 0 < outputFramesOffset M off
        then (outputFramesOffset M off - 1).tdiv rate + 1 else 0 := rfl

theorem outputFrames_snd (M rate off : Int) :
    (SDL_GetResamplerOutputFrames M rate off).2
      = (SDL_GetResamplerOutputFrames M rate off).1 * rate
          - outputFramesOffset M off := rfl

/-- Ceiling characterization of the `div_ceil(input_offset, resample_rate)`
expression `(input_offset - 1) / resample_rate + 1` computed with C
truncating division on a positive `input_offset`. -/
theorem ceil_div_bounds {io rate : Int} (hrate : 0 < rate) (hio : 0 < io) :
    1 ≤ (io - 1).tdiv rate + 1 ∧
      io ≤ ((io - 1).tdiv rate + 1) * rate ∧
      ((io - 1).tdiv rate + 1 - 1) * rate < io := by
  rw [Int.tdiv_eq_ediv (by omega) (le_of_lt hrate)]
  have hd : 0 ≤ (io - 1) / rate := Int.ediv_nonneg (by omega) (le_of_lt hrate)
  have hdm := Int.ediv_add_emod (io - 1) rate
  have hm0 : 0 ≤ (io - 1) % rate := Int.emod_nonneg (io - 1) (ne_of_gt hrate)
  have hm1 : (io - 1) % rate < rate := Int.emod_lt_of_pos (io - 1) hrate
  refine ⟨by omega, ?_, ?_⟩
  · have he : ((io - 1) / rate + 1) * rate = rate * ((io - 1) / rate) + rate := by ring
    rw [he]; linarith
  · have he : ((io - 1) / rate + 1 - 1) * rate = rate * ((io - 1) / rate) := by ring
    rw [he]; linarith

theorem ResamplerMul_sat {a b : Int} (hb : 0 < b) (h : SDL_MAX_SINT64.tdiv b < a) :
    ResamplerMul a b = none := by
  unfold ResamplerMul
  exact if_pos ⟨hb, h⟩

/-- When `input_frames` fits below `INT32_MAX + 1` and the exact
`input_offset` fits in `Sint64`, neither step of
`SDL_GetResamplerOutputFrames` reports overflow and `input_offset` is
exact. -/
theorem outputFramesOffset_eq {M off : Int} (hM : M ≤ 2147483647)
    (ha : M * 4294967296 - off ≤ SDL_MAX_SINT64) :
    outputFramesOffset M off = M * 4294967296 - off := by
  unfold outputFramesOffset
  have h1 : ResamplerMul M 4294967296 = some (M * 4294967296) := by
    unfold ResamplerMul
    rw [if_neg]
    rintro ⟨-, hlt⟩
    have hq : SDL_MAX_SINT64.tdiv 4294967296 = 2147483647 := by decide
    omega
  have h2 : ResamplerAdd (M * 4294967296) (-off) = some (M * 4294967296 + -off) :=
    ResamplerAdd_eq_some (by omega)
  simp only [h1, h2]
  ring

/-- When `input_frames` exceeds `INT32_MAX` the multiply saturates and
`input_offset` becomes `SDL_MAX_SINT64`. -/
theorem outputFramesOffset_sat {M off : Int} (hM : 2147483647 < M) :
    outputFramesOffset M off = SDL_MAX_SINT64 := by
  unfold outputFramesOffset
  have h1 : ResamplerMul M 4294967296 = none := by
    apply ResamplerMul_sat (by decide)
    have hq : SDL_MAX_SINT64.tdiv 4294967296 = 2147483647 := by decide
    omega
  simp only [h1]

/-- C5: for every input count `M`, `rate > 0` and offset for which no
saturation triggers, `SDL_GetResamplerOutputFrames`, letting
`input_offset = (M << 32) - offset`, returns `0` when `input_offset ≤ 0`
and otherwise `ceil(input_offset / rate) = (input_offset - 1)/rate + 1`
(characterized by `(out - 1) * rate < input_offset ≤ out * rate`), and in
both cases stores `out * rate - input_offset` into the offset slot. -/
theorem SDL_GetResamplerOutputFrames_formula (M rate off : Int) (hrate : 0 < rate)
    (hM : M ≤ 2147483647)
    (ha : M * 4294967296 - off ≤ SDL_MAX_SINT64) :
    ((M * 4294967296 - off ≤ 0 → (SDL_GetResamplerOutputFrames M rate off).1 = 0) ∧
      (0 < M * 4294967296 - off →
        (SDL_GetResamplerOutputFrames M rate off).1
            = (M * 4294967296 - off - 1) / rate + 1 ∧
          M * 4294967296 - off ≤ (SDL_GetResamplerOutputFrames M rate off).1 * rate ∧
          ((SDL_GetResamplerOutputFrames M rate off).1 - 1) * rate
            < M * 4294967296 - off)) ∧
      (SDL_GetResamplerOutputFrames M rate off).2
        = (SDL_GetResamplerOutputFrames M rate off).1 * rate
            - (M * 4294967296 - off) := by
  have hio := outputFramesOffset_eq hM ha
  rw [outputFrames_snd, outputFrames_fst, hio]
  by_cases h : 0 < M * 4294967296 - off
  · rw [if_pos h]
    have hc := ceil_div_bounds hrate h
    have htd : (M * 4294967296 - off - 1).tdiv rate = (M * 4294967296 - off - 1) / rate :=
      Int.tdiv_eq_ediv (by omega) (le_of_lt hrate)
    exact ⟨⟨fun hle => absurd h (not_lt.mpr hle),
      fun _ => ⟨by rw [htd], hc.2.1, hc.2.2⟩⟩, rfl⟩
  · rw [if_neg h]
    exact ⟨⟨fun _ => rfl, fun hpos => absurd hpos h⟩, rfl⟩

/-- Witness for `SDL_GetResamplerOutputFrames_formula` at
`M = 1, rate = 3, offset = 2`. -/
theorem SDL_GetResamplerOutputFrames_formula_witness :
    (((1:Int) * 4294967296 - 2 ≤ 0 → (SDL_GetResamplerOutputFrames 1 3 2).1 = 0) ∧
      (0 < (1:Int) * 4294967296 - 2 →
        (SDL_GetResamplerOutputFrames 1 3 2).1 = ((1:Int) * 4294967296 - 2 - 1) / 3 + 1 ∧
          (1:Int) * 4294967296 - 2 ≤ (SDL_GetResamplerOutputFrames 1 3 2).1 * 3 ∧
          ((SDL_GetResamplerOutputFrames 1 3 2).1 - 1) * 3 < (1:Int) * 4294967296 - 2)) ∧
      (SDL_GetResamplerOutputFrames 1 3 2).2
        = (SDL_GetResamplerOutputFrames 1 3 2).1 * 3 - ((1:Int) * 4294967296 - 2) :=
  SDL_GetResamplerOutputFrames_formula 1 3 2 (by decide) (by decide) (by decide)

/-- C9: `SDL_GetResamplerOutputFrames` preserves the offset range
invariant: for `rate > 0` and `input_frames ≥ 0`, if the incoming offset
satisfies `0 ≤ offset < rate`, the stored offset again satisfies
`0 ≤ offset' < rate` and the returned output count is non-negative; this
holds on the saturation path as well. -/
theorem SDL_GetResamplerOutputFrames_offset_invariant (M rate off : Int)
    (hrate : 0 < rate) (hM : 0 ≤ M) (h0 : 0 ≤ off) (h1 : off < rate) :
    0 ≤ (SDL_GetResamplerOutputFrames M rate off).1 ∧
      0 ≤ (SDL_GetResamplerOutputFrames M rate off).2 ∧
      (SDL_GetResamplerOutputFrames M rate off).2 < rate := by
  rw [outputFrames_snd, outputFrames_fst]
  by_cases hbig : 2147483647 < M
  · rw [outputFramesOffset_sat hbig]
    have hpos : (0:Int) < SDL_MAX_SINT64 := by decide
    rw [if_pos hpos]
    have hc := ceil_div_bounds hrate hpos
    have he : ((SDL_MAX_SINT64 - 1).tdiv rate + 1 - 1) * rate
        = ((SDL_MAX_SINT64 - 1).tdiv rate + 1) * rate - rate := by ring
    rw [he] at hc
    exact ⟨by linarith [hc.1], by linarith [hc.2.1], by linarith [hc.2.2]⟩
  · rw [outputFramesOffset_eq (by omega) (by unfold SDL_MAX_SINT64; omega)]
    by_cases hio : 0 < M * 4294967296 - off
    · rw [if_pos hio]
      have hc := ceil_div_bounds hrate hio
      have he : ((M * 4294967296 - off - 1).tdiv rate + 1 - 1) * rate
          = ((M * 4294967296 - off - 1).tdiv rate + 1) * rate - rate := by ring
      rw [he] at hc
      exact ⟨by linarith [hc.1], by linarith [hc.2.1], by linarith [hc.2.2]⟩
    · rw [if_neg hio]
      refine ⟨le_refl 0, ?_, ?_⟩ <;> · rw [zero_mul]; omega

/-- Witness for `SDL_GetResamplerOutputFrames_offset_invariant` at
`M = 5, rate = 4294967296, offset = 7`. -/
theorem SDL_GetResamplerOutputFrames_offset_invariant_witness :
    0 ≤ (SDL_GetResamplerOutputFrames 5 4294967296 7).1 ∧
      0 ≤ (SDL_GetResamplerOutputFrames 5 4294967296 7).2 ∧
      (SDL_GetResamplerOutputFrames 5 4294967296 7).2 < 4294967296 :=
  SDL_GetResamplerOutputFrames_offset_invariant 5 4294967296 7 (by decide) (by decide)
    (by decide) (by decide)

/-- Returned output counts are never negative (any arguments, `rate > 0`). -/
theorem outputFrames_nonneg (M rate off : Int) (hrate : 0 < rate) :
    0 ≤ (SDL_GetResamplerOutputFrames M rate off).1 := by
  rw [outputFrames_fst]
  by_cases hio : 0 < outputFramesOffset M off
  · rw [if_pos hio]
    have hc := ceil_div_bounds hrate hio
    linarith [hc.1]
  · rw [if_neg hio]

theorem SDL_MAX_SINT64_eq : SDL_MAX_SINT64 = 9223372036854775807 := rfl

/-- C7 counterexample: with `N = 2^31`, `rate = 2^62`, `offset = 0`
(so `rate > 0`, `|offset| < rate`, `N ≥ 0`), the planning multiply in
`SDL_GetResamplerInputFrames` saturates and the saturated intermediate is
narrowed to `INT32_MAX` input frames; feeding that back into
`SDL_GetResamplerOutputFrames` yields only `2` output frames, far fewer
than `N`. -/
theorem planning_duality_claim_false :
    ¬ (2147483648
        ≤ (SDL_GetResamplerOutputFrames
            (SDL_GetResamplerInputFrames 2147483648 4611686018427387904 0)
            4611686018427387904 0).1) := by decide

/-- C7 (amended): for every `rate > 0`, offset with `|offset| < rate` and
output count `N ≥ 0` such that the planning arithmetic of
`SDL_GetResamplerInputFrames` does not saturate (`N * rate` and the
subsequent add stay within `INT64_MAX`), feeding
`M = SDL_GetResamplerInputFrames(N, rate, offset)` into
`SDL_GetResamplerOutputFrames` returns at least `N` output frames. -/
theorem planning_duality (N rate off : Int) (hrate : 0 < rate)
    (hoff1 : -rate < off) (hoff2 : off < rate) (hN : 0 ≤ N)
    (hm : N * rate ≤ SDL_MAX_SINT64)
    (ha : N * rate + (-rate + off + 4294967296) ≤ SDL_MAX_SINT64) :
    N ≤ (SDL_GetResamplerOutputFrames (SDL_GetResamplerInputFrames N rate off)
          rate off).1 := by
  rcases eq_or_lt_of_le hN with h0 | hN1
  · rw [← h0]
    exact outputFrames_nonneg _ rate off hrate
  · have hA : N * rate = (N - 1) * rate + rate := by ring
    have hmul0 : 0 ≤ (N - 1) * rate := mul_nonneg (by omega) (le_of_lt hrate)
    have hrle : rate ≤ 9223372036854775807 := by
      rw [SDL_MAX_SINT64_eq] at hm
      linarith
    have hS : inputFramesOffset N rate off
        = (off + (N - 1) * rate) + 4294967296 := by
      rw [inputFramesOffset_eq hrate hm ha]; ring
    have hx_lb : -rate < off + (N - 1) * rate := by linarith
    have hx_ub : off + (N - 1) * rate ≤ 9223372036854775807 - 4294967296 := by
      have he : N * rate + (-rate + off + 4294967296)
          = (off + (N - 1) * rate) + 4294967296 := by ring
      have h' := ha
      rw [he, SDL_MAX_SINT64_eq] at h'
      linarith
    obtain ⟨x, hxdef⟩ : ∃ x, off + (N - 1) * rate = x := ⟨_, rfl⟩
    rw [hxdef] at hS hx_lb hx_ub
    have hxMAX : -9223372036854775807 ≤ x := by omega
    have hq_lb : -2147483648 ≤ shr32 x := by unfold shr32; omega
    have hq_ub : shr32 x + 1 ≤ 2147483647 := by unfold shr32; omega
    have hqx2 : x < (shr32 x + 1) * 4294967296 := by unfold shr32; omega
    have hshrS : shr32 (x + 4294967296) = shr32 x + 1 := by unfold shr32; omega
    obtain ⟨q, hqdef⟩ : ∃ q, shr32 x = q := ⟨_, rfl⟩
    rw [hqdef] at hq_lb hq_ub hqx2 hshrS
    have hM : SDL_GetResamplerInputFrames N rate off = max (q + 1) 0 := by
      unfold SDL_GetResamplerInputFrames
      rw [hS, hshrS, toSint32_eq_self (by omega) (by omega)]
    by_cases hcase : q + 1 ≤ 0
    · -- M = 0; this forces N = 1 and a negative offset
      have hM0 : SDL_GetResamplerInputFrames N rate off = 0 := by
        rw [hM, max_eq_right (by omega)]
      have hxneg : x < 0 := by omega
      have hoffneg : off < 0 := by linarith [hmul0, hxdef]
      have hNeq : N = 1 := by
        have h' : (N - 1) * rate < 1 * rate := by
          rw [one_mul]
          linarith [hxdef]
        have h2 := lt_of_mul_lt_mul_right h' (le_of_lt hrate)
        omega
      subst hNeq
      rw [hM0, outputFrames_fst]
      have hio : outputFramesOffset 0 off = 0 * 4294967296 - off :=
        outputFramesOffset_eq (by decide) (by rw [SDL_MAX_SINT64_eq]; omega)
      rw [hio]
      have hiopos : 0 < 0 * 4294967296 - off := by omega
      rw [if_pos hiopos]
      exact (ceil_div_bounds hrate hiopos).1
    · have hq1 : 0 ≤ q + 1 := by omega
      have hMq : SDL_GetResamplerInputFrames N rate off = q + 1 := by
        rw [hM, max_eq_left hq1]
      rw [hMq, outputFrames_fst]
      have hnum : (2147483647:Int) * 4294967296 = 9223372032559808512 := by norm_num
      have hprod : (q + 1) * 4294967296 ≤ 2147483647 * 4294967296 :=
        mul_le_mul_of_nonneg_right hq_ub (by norm_num)
      by_cases hsat : 0 < -off ∧ SDL_MAX_SINT64 - -off < (q + 1) * 4294967296
      · -- the output-side add saturates, input_offset = INT64_MAX
        have hio : outputFramesOffset (q + 1) off = SDL_MAX_SINT64 := by
          unfold outputFramesOffset
          have h1 : ResamplerMul (q + 1) 4294967296 = some ((q + 1) * 4294967296) := by
            apply ResamplerMul_eq_some (by decide)
            rw [SDL_MAX_SINT64_eq]
            linarith
          have h2 : ResamplerAdd ((q + 1) * 4294967296) (-off) = none := by
            unfold ResamplerAdd
            exact if_pos hsat
          simp only [h1, h2]
        rw [hio]
        have hpos : (0:Int) < SDL_MAX_SINT64 := by decide
        rw [if_pos hpos]
        have hc := ceil_div_bounds hrate hpos
        have hlt : (N - 1) * rate < ((SDL_MAX_SINT64 - 1).tdiv rate + 1) * rate := by
          linarith [hc.2.1, hA, hm]
        have h3 := lt_of_mul_lt_mul_right hlt (le_of_lt hrate)
        linarith [Int.lt_iff_add_one_le.mp h3]
      · -- no output-side saturation, input_offset is exact
        have hble : (q + 1) * 4294967296 - off ≤ SDL_MAX_SINT64 := by
          rw [SDL_MAX_SINT64_eq]
          rcases not_and_or.mp hsat with h | h
          · push_neg at h
            linarith
          · push_neg at h
            rw [SDL_MAX_SINT64_eq] at h
            linarith
        have hio := outputFramesOffset_eq (show q + 1 ≤ 2147483647 by omega) hble
        rw [hio]
        have hgt : (N - 1) * rate < (q + 1) * 4294967296 - off := by
          linarith [hqx2, hxdef]
        have hiopos : 0 < (q + 1) * 4294967296 - off := by linarith [hmul0]
        rw [if_pos hiopos]
        have hc := ceil_div_bounds hrate hiopos
        have hlt : (N - 1) * rate
            < (((q + 1) * 4294967296 - off - 1).tdiv rate + 1) * rate := by
          linarith [hc.2.1]
        have h3 := lt_of_mul_lt_mul_right hlt (le_of_lt hrate)
        linarith [Int.lt_iff_add_one_le.mp h3]

/-- Witness for `planning_duality` at `N = 1, rate = 2, offset = 1`. -/
theorem planning_duality_witness :
    (1:Int) ≤ (SDL_GetResamplerOutputFrames (SDL_GetResamplerInputFrames 1 2 1) 2 1).1 :=
  planning_duality 1 2 1 (by decide) (by decide) (by decide) (by decide) (by decide)
    (by decide)

/-- Uninterpreted single-precision arithmetic: `add`, `mul`, `sub` and the
constants `0.0f`, `1.0f`.  No laws are assumed, so an equality of results
is an equality of the evaluated expression trees — the same operations
applied in the same order — and therefore holds for IEEE binary32
arithmetic in particular. -/
structure FloatOps (α : Type) where
  add : α → α → α
  mul : α → α → α
  sub : α → α → α
  zero : α
  one : α

/-- The per-tap filter blend
`(filter[i] * (1.0f - interp)) + (filter[i + RESAMPLER_SAMPLES_PER_FRAME] * interp)`
shared by the scalar kernels (`RESAMPLER_SAMPLES_PER_FRAME` is 10). -/
def filterScale {α : Type} (F : FloatOps α) (filter : Nat → α) (interp : α) (i : Nat) : α :=
  F.add (F.mul (filter i) (F.sub F.one interp)) (F.mul (filter (i + 10)) interp)

/-- ResampleFrame_Generic: first precomputes the 10 blended scales into a
stack array, then for each channel accumulates
`out += src[i * chans + chan] * scales[i]` for `i = 0..9` starting from
`0.0f`, writing the `chans` output samples in channel order. -/
def ResampleFrame_Generic {α : Type} (F : FloatOps α) (src : Int → α) (filter : Nat → α)
    (interp : α) (chans : Nat) : List α :=
  let scales := fun i => filterScale F filter interp i
  (List.range chans).map fun chan =>
    (List.range 10).foldl
      (fun out (i : Nat) => F.add out (F.mul (src (↑(i * chans + chan))) (scales i)))
      F.zero

/-- ResampleFrame_Mono: computes the blended scale inside the tap loop and
accumulates a single sum `out += src[i] * scale`. -/
def ResampleFrame_Mono {α : Type} (F : FloatOps α) (src : Int → α) (filter : Nat → α)
    (interp : α) : List α :=
  [(List.range 10).foldl
    (fun out (i : Nat) => F.add out (F.mul (src (↑i)) (filterScale F filter interp i)))
    F.zero]

/-- ResampleFrame_Stereo: computes the blended scale once per tap and
accumulates the two sums `out0 += src[i * 2 + 0] * scale` and
`out1 += src[i * 2 + 1] * scale` in one loop. -/
def ResampleFrame_Stereo {α : Type} (F : FloatOps α) (src : Int → α) (filter : Nat → α)
    (interp : α) : List α :=
  let p := (List.range 10).foldl
    (fun (out : α × α) (i : Nat) =>
      let scale := filterScale F filter interp i
      (F.add out.1 (F.mul (src (↑(i * 2 + 0))) scale),
       F.add out.2 (F.mul (src (↑(i * 2 + 1))) scale)))
    (F.zero, F.zero)
  [p.1, p.2]

/-- Modelled from the spec's kernel contract (§4.3): for each channel `c`,
`dst[c] = Σ_{i=0..9} src[i*C + c] * ((1 - α)*f₀[i] + α*f₁[i])`, with the
per-tap blend computed first and the taps accumulated in increasing `i`
order starting from zero. -/
def specKernelContract {α : Type} (F : FloatOps α) (src : Int → α) (f0 f1 : Nat → α)
    (alpha : α) (chans : Nat) : List α :=
  (List.range chans).map fun c =>
    (List.range 10).foldl
      (fun acc (i : Nat) =>
        F.add acc (F.mul (src (↑(i * chans + c)))
          (F.add (F.mul (F.sub F.one alpha) (f0 i)) (F.mul alpha (f1 i)))))
      F.zero

/-- Concrete instantiation of the abstract float operations on `Int`,
used by witnesses and counterexamples. -/
def intFloatOps : FloatOps Int := ⟨(· + ·), (· * ·), (· - ·), 0, 1⟩

theorem foldl_ext {β γ : Type} {f g : γ → β → γ} (l : List β) (a : γ)
    (h : ∀ acc : γ, ∀ b ∈ l, f acc b = g acc b) : l.foldl f a = l.foldl g a := by
  induction l generalizing a with
  | nil => rfl
  | cons x xs ih =>
    rw [List.foldl_cons, List.foldl_cons, h a x (List.mem_cons_self x xs)]
    exact ih _ (fun acc b hb => h acc b (List.mem_cons_of_mem x hb))

/-- C1: for every channel count `C` with `1 ≤ C ≤ 8`, each scalar kernel
writes exactly `C` output samples satisfying the spec contract
`dst[c] = Σ_{i=0..9} src[i*C + c] * ((1 - α)*f₀[i] + α*f₁[i])` with
`f₀ = filter[0..9]` and `f₁ = filter[10..19]`, the per-tap blend computed
first and the taps accumulated in increasing `i` order
(`ResampleFrame_Mono` for `C = 1`, `ResampleFrame_Stereo` for `C = 2`).
Only commutativity of multiplication — valid for IEEE binary32 — is
assumed; no reassociation of the additions is needed. -/
theorem ResampleFrame_kernels_match_contract {α : Type} (F : FloatOps α)
    (hmul : ∀ x y : α, F.mul x y = F.mul y x)
    (src : Int → α) (filter : Nat → α) (interp : α) (chans : Nat)
    (h1 : 1 ≤ chans) (h8 : chans ≤ 8) :
    (ResampleFrame_Generic F src filter interp chans).length = chans ∧
      ResampleFrame_Generic F src filter interp chans
        = specKernelContract F src (fun i => filter i) (fun i => filter (i + 10))
            interp chans ∧
      ResampleFrame_Mono F src filter interp
        = specKernelContract F src (fun i => filter i) (fun i => filter (i + 10))
            interp 1 ∧
      ResampleFrame_Stereo F src filter interp
        = specKernelContract F src (fun i => filter i) (fun i => filter (i + 10))
            interp 2 := by
  have hgen : ∀ C, ResampleFrame_Generic F src filter interp C
      = specKernelContract F src (fun i => filter i) (fun i => filter (i + 10))
          interp C := by
    intro C
    simp only [ResampleFrame_Generic, specKernelContract]
    congr 1
    funext c
    apply foldl_ext
    intro acc b hb
    simp only [filterScale, hmul]
  have hmono : ResampleFrame_Mono F src filter interp
      = ResampleFrame_Generic F src filter interp 1 := rfl
  have hster : ResampleFrame_Stereo F src filter interp
      = ResampleFrame_Generic F src filter interp 2 := rfl
  refine ⟨?_, hgen chans, hmono.trans (hgen 1), hster.trans (hgen 2)⟩
  simp only [ResampleFrame_Generic, List.length_map, List.length_range]

/-- Witness for `ResampleFrame_kernels_match_contract` with exact integer
arithmetic, `chans = 1`, zero source and filter. -/
theorem ResampleFrame_kernels_match_contract_witness :
    (ResampleFrame_Generic intFloatOps (fun _ => (0:Int)) (fun _ => 0) 0 1).length = 1 ∧
      ResampleFrame_Generic intFloatOps (fun _ => (0:Int)) (fun _ => 0) 0 1
        = specKernelContract intFloatOps (fun _ => (0:Int)) (fun i => (fun _ => (0:Int)) i)
            (fun i => (fun _ => (0:Int)) (i + 10)) 0 1 ∧
      ResampleFrame_Mono intFloatOps (fun _ => (0:Int)) (fun _ => 0) 0
        = specKernelContract intFloatOps (fun _ => (0:Int)) (fun i => (fun _ => (0:Int)) i)
            (fun i => (fun _ => (0:Int)) (i + 10)) 0 1 ∧
      ResampleFrame_Stereo intFloatOps (fun _ => (0:Int)) (fun _ => 0) 0
        = specKernelContract intFloatOps (fun _ => (0:Int)) (fun i => (fun _ => (0:Int)) i)
            (fun i => (fun _ => (0:Int)) (i + 10)) 0 2 :=
  ResampleFrame_kernels_match_contract intFloatOps (fun x y => Int.mul_comm x y)
    (fun _ => 0) (fun _ => 0) 0 1 (by decide) (by decide)

/-- Kernel dispatch: the table built by `SDL_SetupAudioResampler` on the
scalar path has `ResampleFrame_Mono` at index 0, `ResampleFrame_Stereo`
at index 1 and `ResampleFrame_Generic` at indices 2..7; the driver
indexes it with `chans - 1`. -/
def ResampleFrame {α : Type} (F : FloatOps α) (chans : Nat) (src : Int → α)
    (filter : Nat → α) (interp : α) : List α :=
  if chans = 1 then ResampleFrame_Mono F src filter interp
  else if chans = 2 then ResampleFrame_Stereo F src filter interp
  else ResampleFrame_Generic F src filter interp chans

/-- The output loop of `SDL_ResampleAudio`, returning the concatenated
output frames and the final `srcpos`.  Per iteration:
`srcindex = (int)(Sint32)(srcpos >> 32)`,
`srcfraction = (Uint32)(srcpos & 0xFFFFFFFF)`, `srcpos += resample_rate`;
the filter row pointer is
`&ResamplerFilter[(srcfraction >> 23) * 10]` (`RESAMPLER_FILTER_INTERP_BITS`
is 23, `RESAMPLER_SAMPLES_PER_FRAME` is 10, bank values abstracted by
`bank`), the interpolation weight
`(float)(srcfraction & 0x7FFFFF) * (1.0f / 0x800000)` is abstracted by
`interpOf` applied to the masked fraction, and the kernel runs on the
window `&src[srcindex * chans]` of the already-shifted `src`. -/
def resampleLoop {α : Type} (F : FloatOps α) (chans : Nat) (src : Int → α)
    (bank : Nat → α) (interpOf : Nat → α) (resample_rate : Int) :
    Nat → Int → List α × Int
  | 0, srcpos => ([], srcpos)
  | n + 1, srcpos =>
    let srcindex := toSint32 (shr32 srcpos)
    let srcfraction := low32 srcpos
    let filter := fun i => bank ((srcfraction >>> 23) * 10 + i)
    let interp := interpOf (srcfraction % 8388608)
    let out := ResampleFrame F chans (fun k => src (srcindex * chans + k)) filter interp
    let rest := resampleLoop F chans src bank interpOf resample_rate n
      (srcpos + resample_rate)
    (out ++ rest.1, rest.2)

/-- SDL_ResampleAudio: shifts `src` left by
`(RESAMPLER_ZERO_CROSSINGS - 1) * chans = 4 * chans` samples, runs the
output loop from `srcpos = *inout_resample_offset`, and pairs the output
samples with the updated offset `srcpos - ((Sint64)inframes << 32)`. -/
def SDL_ResampleAudio {α : Type} (F : FloatOps α) (chans : Nat) (src : Int → α)
    (inframes : Int) (outframes : Nat) (resample_rate resample_offset : Int)
    (bank : Nat → α) (interpOf : Nat → α) : List α × Int :=
  let srcS := fun k => src (k - 4 * chans)
  let r := resampleLoop F chans srcS bank interpOf resample_rate outframes resample_offset
  (r.1, r.2 - inframes * 4294967296)

/-- The sequence of `srcindex` values computed by the `SDL_ResampleAudio`
output loop (the same recurrence as `resampleLoop`). -/
def resampleIndices (resample_rate : Int) : Nat → Int → List Int
  | 0, _ => []
  | n + 1, srcpos =>
    toSint32 (shr32 srcpos) :: resampleIndices resample_rate n (srcpos + resample_rate)

theorem resampleLoop_final {α : Type} (F : FloatOps α) (chans : Nat) (src : Int → α)
    (bank interpOf : Nat → α) (rate : Int) :
    ∀ (n : Nat) (srcpos : Int),
      (resampleLoop F chans src bank interpOf rate n srcpos).2 = srcpos + n * rate := by
  intro n
  induction n with
  | zero => intro srcpos; simp [resampleLoop]
  | succ k ih =>
    intro srcpos
    simp only [resampleLoop]
    rw [ih]
    push_cast
    ring

/-- C2: for every call to `SDL_ResampleAudio` with `resample_rate > 0`,
the offset stored back plus `(inframes << 32)` equals the initial offset
plus `outframes * resample_rate`, as exact integer arithmetic. -/
theorem SDL_ResampleAudio_offset_advance {α : Type} (F : FloatOps α) (chans : Nat)
    (src : Int → α) (inframes : Int) (outframes : Nat) (rate off : Int)
    (bank interpOf : Nat → α) (hrate : 0 < rate) :
    (SDL_ResampleAudio F chans src inframes outframes rate off bank interpOf).2
        + inframes * 4294967296 = off + outframes * rate := by
  simp only [SDL_ResampleAudio]
  rw [resampleLoop_final]
  ring

/-- Witness for `SDL_ResampleAudio_offset_advance` at
`chans = 1, inframes = 3, outframes = 2, rate = 5, offset = 7`. -/
theorem SDL_ResampleAudio_offset_advance_witness :
    (SDL_ResampleAudio intFloatOps 1 (fun _ => (0:Int)) 3 2 5 7 (fun _ => 0)
        (fun _ => 0)).2 + 3 * 4294967296 = 7 + 2 * 5 :=
  SDL_ResampleAudio_offset_advance intFloatOps 1 (fun _ => 0) 3 2 5 7 (fun _ => 0)
    (fun _ => 0) (by decide)

theorem map_ext {β γ : Type} {f g : β → γ} (l : List β) (h : ∀ b ∈ l, f b = g b) :
    l.map f = l.map g := by
  induction l with
  | nil => rfl
  | cons x xs ih =>
    rw [List.map_cons, List.map_cons, h x (List.mem_cons_self x xs),
      ih (fun b hb => h b (List.mem_cons_of_mem x hb))]

/-- The mono and stereo table entries agree with the generic kernel, so
the dispatch always computes the generic convolution. -/
theorem ResampleFrame_eq_generic {α : Type} (F : FloatOps α) (chans : Nat)
    (src : Int → α) (filter : Nat → α) (interp : α) :
    ResampleFrame F chans src filter interp
      = ResampleFrame_Generic F src filter interp chans := by
  unfold ResampleFrame
  by_cases h1 : chans = 1
  · subst h1; rw [if_pos rfl]; rfl
  · rw [if_neg h1]
    by_cases h2 : chans = 2
    · subst h2; rw [if_pos rfl]; rfl
    · rw [if_neg h2]

/-- The generic kernel only evaluates its source window at sample indices
in `[0, 10 * chans)`. -/
theorem ResampleFrame_Generic_ext {α : Type} (F : FloatOps α) (chans : Nat)
    (s1 s2 : Int → α) (filter : Nat → α) (interp : α)
    (h : ∀ k : Int, 0 ≤ k → k < 10 * (chans : Int) → s1 k = s2 k) :
    ResampleFrame_Generic F s1 filter interp chans
      = ResampleFrame_Generic F s2 filter interp chans := by
  unfold ResampleFrame_Generic
  apply map_ext
  intro chan hchan
  apply foldl_ext
  intro acc i hi
  have hi10 : i < 10 := List.mem_range.mp hi
  have hchan' : chan < chans := List.mem_range.mp hchan
  have hnat : i * chans + chan < 10 * chans := by
    calc i * chans + chan < i * chans + chans := Nat.add_lt_add_left hchan' _
      _ = (i + 1) * chans := by ring
      _ ≤ 10 * chans := Nat.mul_le_mul_right chans (by omega)
  rw [h (↑(i * chans + chan)) (by positivity) (by exact_mod_cast hnat)]

/-- The driver loop only evaluates its (already shifted) source at sample
indices in `[lo * chans, (hi + 9) * chans)` when every `srcindex` it
computes lies in `[lo, hi)`. -/
theorem resampleLoop_ext {α : Type} (F : FloatOps α) (chans : Nat)
    (bank interpOf : Nat → α) (rate : Int) (lo hi : Int) :
    ∀ (n : Nat) (srcpos : Int) (s1 s2 : Int → α),
      (∀ m : Nat, m < n → lo ≤ toSint32 (shr32 (srcpos + (m : Int) * rate)) ∧
          toSint32 (shr32 (srcpos + (m : Int) * rate)) < hi) →
      (∀ k : Int, lo * (chans : Int) ≤ k → k < (hi + 9) * (chans : Int) → s1 k = s2 k) →
      resampleLoop F chans s1 bank interpOf rate n srcpos
        = resampleLoop F chans s2 bank interpOf rate n srcpos := by
  intro n
  induction n with
  | zero => intro srcpos s1 s2 hidx hagree; rfl
  | succ j ih =>
    intro srcpos s1 s2 hidx hagree
    simp only [resampleLoop]
    have hidx0 := hidx 0 (Nat.succ_pos j)
    norm_num at hidx0
    have hc0 : (0:Int) ≤ (chans : Int) := Int.natCast_nonneg chans
    have hkernel :
        ResampleFrame F chans
            (fun k => s1 (toSint32 (shr32 srcpos) * (chans : Int) + k))
            (fun i => bank ((low32 srcpos >>> 23) * 10 + i))
            (interpOf (low32 srcpos % 8388608))
          = ResampleFrame F chans
              (fun k => s2 (toSint32 (shr32 srcpos) * (chans : Int) + k))
              (fun i => bank ((low32 srcpos >>> 23) * 10 + i))
              (interpOf (low32 srcpos % 8388608)) := by
      rw [ResampleFrame_eq_generic, ResampleFrame_eq_generic]
      apply ResampleFrame_Generic_ext
      intro k hk0 hk10
      apply hagree
      · have := mul_le_mul_of_nonneg_right hidx0.1 hc0
        linarith
      · have h9 : toSint32 (shr32 srcpos) + 10 ≤ hi + 9 :=
          by linarith [Int.lt_iff_add_one_le.mp hidx0.2]
        have := mul_le_mul_of_nonneg_right h9 hc0
        have e1 : (toSint32 (shr32 srcpos) + 10) * (chans : Int)
            = toSint32 (shr32 srcpos) * (chans : Int) + 10 * (chans : Int) := by ring
        linarith
    rw [hkernel, ih (srcpos + rate) s1 s2 ?_ hagree]
    intro m hm
    have h' := hidx (m + 1) (by omega)
    have e : srcpos + ((m : Int) + 1) * rate = srcpos + rate + (m : Int) * rate := by
      ring
    rw [show ((m + 1 : Nat) : Int) = (m : Int) + 1 by push_cast; ring, e] at h'
    exact h'

/-- Every `srcindex` computed for iteration `m < N` lies in
`[-1, SDL_GetResamplerInputFrames N rate off)` when the planning
arithmetic does not saturate and the offset is at least `-2^32`. -/
theorem srcindex_bounds (N : Nat) (rate off : Int) (hrate : 0 < rate)
    (hoff : -4294967296 ≤ off)
    (hm : (N : Int) * rate ≤ SDL_MAX_SINT64)
    (ha : (N : Int) * rate + (-rate + off + 4294967296) ≤ SDL_MAX_SINT64) :
    ∀ m : Nat, m < N →
      -1 ≤ toSint32 (shr32 (off + (m : Int) * rate)) ∧
        toSint32 (shr32 (off + (m : Int) * rate))
          < SDL_GetResamplerInputFrames N rate off := by
  intro m hmN
  have hmle : (m : Int) * rate ≤ ((N : Int) - 1) * rate :=
    mul_le_mul_of_nonneg_right (by omega) (le_of_lt hrate)
  have hm0 : 0 ≤ (m : Int) * rate := mul_nonneg (by omega) (le_of_lt hrate)
  have hS : inputFramesOffset N rate off
      = (off + ((N : Int) - 1) * rate) + 4294967296 := by
    rw [inputFramesOffset_eq hrate hm ha]; ring
  have hx_ub : off + ((N : Int) - 1) * rate ≤ 9223372036854775807 - 4294967296 := by
    have he : (N : Int) * rate + (-rate + off + 4294967296)
        = (off + ((N : Int) - 1) * rate) + 4294967296 := by ring
    have h' := ha
    rw [he, SDL_MAX_SINT64_eq] at h'
    linarith
  obtain ⟨x, hxdef⟩ : ∃ x, off + ((N : Int) - 1) * rate = x := ⟨_, rfl⟩
  rw [hxdef] at hS hx_ub
  obtain ⟨y, hydef⟩ : ∃ y, off + (m : Int) * rate = y := ⟨_, rfl⟩
  have hyx : y ≤ x := by rw [← hxdef, ← hydef]; linarith
  have hylb : -4294967296 ≤ y := by rw [← hydef]; linarith
  have hxlb : -4294967296 ≤ x := by rw [← hxdef]; linarith
  have hq1 : -1 ≤ shr32 x := by unfold shr32; omega
  have hq2 : shr32 x + 1 ≤ 2147483647 := by unfold shr32; omega
  have hy1 : -1 ≤ shr32 y := by unfold shr32; omega
  have hy2 : shr32 y ≤ shr32 x := by unfold shr32; omega
  have hshrS : shr32 (x + 4294967296) = shr32 x + 1 := by unfold shr32; omega
  have hMval : SDL_GetResamplerInputFrames N rate off = shr32 x + 1 := by
    unfold SDL_GetResamplerInputFrames
    rw [hS, hshrS, toSint32_eq_self (by omega) (by omega), max_eq_left (by omega)]
  rw [hydef, hMval, toSint32_eq_self (by omega) (by omega)]
  omega

/-- C3 counterexample: at `chans = 1, rate = 2^32, offset = 0, N = 1` the
planner returns `M = SDL_GetResamplerInputFrames(1, 2^32, 0) = 1`, so the
buffer claimed sufficient is frames `-6 .. 0` (six history frames plus one
live frame).  The two sources below agree at every sample index `k < 1` —
in particular on that whole buffer — and differ only from frame `1`
onward, yet `SDL_ResampleAudio` produces different outputs: the 10-tap
window for `srcindex = 0` reads frames `-4 .. 5`, beyond the claimed
buffer. -/
theorem SDL_ResampleAudio_reads_outside_supplied_buffer :
    SDL_ResampleAudio intFloatOps 1 (fun _ => (0:Int)) 1 1 4294967296 0
        (fun _ => 1) (fun _ => 0)
      ≠ SDL_ResampleAudio intFloatOps 1 (fun k => if k < 1 then (0:Int) else 1) 1 1
          4294967296 0 (fun _ => 1) (fun _ => 0) := by decide

/-- C3 (amended): for `1 ≤ chans ≤ 8`, `rate > 0`, an offset
`≥ -2^32` (as threaded by the calling contract) and non-saturating
planning arithmetic, with `M = SDL_GetResamplerInputFrames(N, rate, off)`:
every `srcindex` of the loop satisfies `-1 ≤ srcindex < M`, and the
output of `SDL_ResampleAudio` depends only on the source samples at
indices in `[-6 * chans, (M + 6) * chans)`, i.e. all reads lie within the
`M` live frames extended by `SDL_GetResamplerHistoryFrames() = 6` frames
of history on the left and `SDL_GetResamplerPaddingFrames(rate) = 6`
frames of padding on the right (the window for `srcindex` spans frames
`srcindex - 4 .. srcindex + 5`). -/
theorem SDL_ResampleAudio_reads_and_bounds {α : Type} (F : FloatOps α) (chans : Nat)
    (inframes : Int) (N : Nat) (rate off : Int) (bank interpOf : Nat → α)
    (h1 : 1 ≤ chans) (h8 : chans ≤ 8) (hrate : 0 < rate)
    (hoff : -4294967296 ≤ off)
    (hm : (N : Int) * rate ≤ SDL_MAX_SINT64)
    (ha : (N : Int) * rate + (-rate + off + 4294967296) ≤ SDL_MAX_SINT64) :
    (∀ idx ∈ resampleIndices rate N off,
        -1 ≤ idx ∧ idx < SDL_GetResamplerInputFrames N rate off) ∧
      (∀ s1 s2 : Int → α,
        (∀ k : Int, -6 * (chans : Int) ≤ k →
          k < (SDL_GetResamplerInputFrames N rate off + 6) * (chans : Int) →
          s1 k = s2 k) →
        SDL_ResampleAudio F chans s1 inframes N rate off bank interpOf
          = SDL_ResampleAudio F chans s2 inframes N rate off bank interpOf) := by
  have hbounds := srcindex_bounds N rate off hrate hoff hm ha
  constructor
  · have hchar : ∀ (n : Nat) (p : Int), ∀ idx ∈ resampleIndices rate n p,
        ∃ m : Nat, m < n ∧ idx = toSint32 (shr32 (p + (m : Int) * rate)) := by
      intro n
      induction n with
      | zero => intro p idx h; cases h
      | succ j ih =>
        intro p idx h
        rw [resampleIndices] at h
        rcases List.mem_cons.mp h with h | h
        · exact ⟨0, Nat.succ_pos j, by rw [h]; norm_num⟩
        · obtain ⟨m, hmj, he⟩ := ih (p + rate) idx h
          refine ⟨m + 1, by omega, ?_⟩
          rw [he]
          congr 1
          push_cast
          ring
    intro idx hidx
    obtain ⟨m, hmN, he⟩ := hchar N off idx hidx
    rw [he]
    exact hbounds m hmN
  · intro s1 s2 hagree
    simp only [SDL_ResampleAudio]
    rw [resampleLoop_ext F chans bank interpOf rate (-1)
      (SDL_GetResamplerInputFrames N rate off) N off
      (fun k => s1 (k - 4 * (chans : Int))) (fun k => s2 (k - 4 * (chans : Int)))
      hbounds ?_]
    intro k hk0 hk1
    have hc0 : (0:Int) ≤ (chans : Int) := Int.natCast_nonneg chans
    have e1 : ((SDL_GetResamplerInputFrames N rate off) + 9) * (chans : Int)
        = SDL_GetResamplerInputFrames N rate off * (chans : Int)
            + 9 * (chans : Int) := by ring
    have e2 : ((SDL_GetResamplerInputFrames N rate off) + 6) * (chans : Int)
        = SDL_GetResamplerInputFrames N rate off * (chans : Int)
            + 6 * (chans : Int) := by ring
    apply hagree
    · linarith
    · linarith

/-- Witness for `SDL_ResampleAudio_reads_and_bounds` at
`chans = 1, N = 1, rate = 2^32, offset = 0`: the single loop index is `0`
and it satisfies the bounds. -/
theorem SDL_ResampleAudio_reads_and_bounds_witness :
    -1 ≤ (0:Int) ∧ (0:Int) < SDL_GetResamplerInputFrames 1 4294967296 0 :=
  (SDL_ResampleAudio_reads_and_bounds intFloatOps 1 0 1 4294967296 0 (fun _ => 0)
      (fun _ => 0) (by decide) (by decide) (by decide) (by decide) (by decide)
      (by decide)).1 0 (by decide)

/-- Array store `table[k] = v` on a flat table modelled as a function. -/
def store {α : Type} (f : Nat → α) (k : Nat) (v : α) : Nat → α :=
  fun n => if n = k then v else f n

/-- The paired write `ResamplerFilter[lwing] = v; ResamplerFilter[rwing] = v`
with `rwing = (RESAMPLER_FILTER_SIZE - 1) - lwing = 5129 - lwing`
(`RESAMPLER_FILTER_SIZE = 10 * 513 = 5130`). -/
def wingStore {α : Type} (f : Nat → α) (lwing : Nat) (v : α) : Nat → α :=
  store (store f lwing v) (5129 - lwing) v

/-- GenerateResamplerFilter, with the float coefficient computation
abstracted: `coef i j` stands for the value `v` computed for phase `i` and
zero-crossing `j` (the cubic-interpolated Kaiser-windowed sinc sample,
`1.0f` at `n = 0`, sign flips included), and `zero` stands for the float
literal `0.0f`.  The write pattern follows the source exactly: for each
`i < 512` and `j < 5` the value is stored at
`lwing = i * 10 + (5 - 1) - j` and mirrored at `rwing = 5129 - lwing`,
in the source's loop order over the zero-initialised static table, and a
final loop zeroes the outermost taps at `rwing = i + 5`,
`lwing = 5129 - rwing` for `i < 5`.  The symmetry property depends only on
this pattern, not on the abstracted coefficient values. -/
def GenerateResamplerFilter {α : Type} (zero : α) (coef : Nat → Nat → α) : Nat → α :=
  let main := (List.range 512).foldl
    (fun f i => (List.range 5).foldl
      (fun f j => wingStore f (i * 10 + 4 - j) (coef i j)) f)
    (fun _ => zero)
  (List.range 5).foldl (fun f i => wingStore f (5129 - (i + 5)) zero) main

/-- Mirror symmetry of a filter table about index `5129`. -/
def FilterSymmetric {α : Type} (f : Nat → α) : Prop :=
  ∀ n : Nat, n ≤ 5129 → f n = f (5129 - n)

theorem wingStore_symm {α : Type} {f : Nat → α} (hf : FilterSymmetric f)
    {l : Nat} (hl : l ≤ 5129) (v : α) : FilterSymmetric (wingStore f l v) := by
  intro n hn
  simp only [wingStore, store]
  split_ifs <;> first | rfl | omega | exact hf n hn

theorem foldl_wingStore_symm {α β : Type} :
    ∀ (L : List β) (step : (Nat → α) → β → (Nat → α)),
      (∀ (f : Nat → α) (b : β), b ∈ L → FilterSymmetric f →
        FilterSymmetric (step f b)) →
      ∀ f : Nat → α, FilterSymmetric f → FilterSymmetric (L.foldl step f) := by
  intro L step
  induction L with
  | nil => intro hstep f hf; exact hf
  | cons x xs ih =>
    intro hstep f hf
    rw [List.foldl_cons]
    exact ih (fun g b hb hg => hstep g b (List.mem_cons_of_mem x hb) hg)
      (step f x) (hstep f x (List.mem_cons_self x xs) hf)

/-- The generated filter bank is mirror-symmetric about its last index. -/
theorem GenerateResamplerFilter_symm {α : Type} (zero : α) (coef : Nat → Nat → α) :
    FilterSymmetric (GenerateResamplerFilter zero coef) := by
  unfold GenerateResamplerFilter
  apply foldl_wingStore_symm
  · intro f i hi hf
    exact wingStore_symm hf (by omega) zero
  · apply foldl_wingStore_symm
    · intro f i hi hf
      apply foldl_wingStore_symm
      · intro g j hj hg
        have hi' : i < 512 := List.mem_range.mp hi
        exact wingStore_symm hg (by omega) (coef i j)
      · exact hf
    · intro n hn
      rfl

/-- C8: after the filter bank has been generated, it is mirror-symmetric:
`ResamplerFilter[p * 10 + i] = ResamplerFilter[(512 - p) * 10 + (9 - i)]`
for every phase `p` in `[1, 511]` and every tap `i < 10` (`P = 512` phases,
`T = 10` taps).  This holds for arbitrary coefficient values because the
generator always writes each value to an index and its mirror. -/
theorem ResamplerFilter_symmetric {α : Type} (zero : α) (coef : Nat → Nat → α)
    (p i : Nat) (hp1 : 1 ≤ p) (hp2 : p ≤ 511) (hi : i < 10) :
    GenerateResamplerFilter zero coef (p * 10 + i)
      = GenerateResamplerFilter zero coef ((512 - p) * 10 + (9 - i)) := by
  have hmirror : (512 - p) * 10 + (9 - i) = 5129 - (p * 10 + i) := by
    have h10 : p * 10 ≤ 5110 := Nat.mul_le_mul_right 10 hp2
    have h11 : 10 ≤ p * 10 := Nat.mul_le_mul_right 10 hp1
    have h12 : (512 - p) * 10 = 5120 - p * 10 := by omega
    omega
  rw [hmirror]
  exact GenerateResamplerFilter_symm zero coef (p * 10 + i) (by
    have h10 : p * 10 ≤ 5110 := Nat.mul_le_mul_right 10 hp2
    omega)

/-- Witness for `ResamplerFilter_symmetric` at `p = 1, i = 0` with integer
stand-ins for the coefficients. -/
theorem ResamplerFilter_symmetric_witness :
    GenerateResamplerFilter (0:Int) (fun i j => (i * 5 + j : Int)) (1 * 10 + 0)
      = GenerateResamplerFilter (0:Int) (fun i j => (i * 5 + j : Int))
          ((512 - 1) * 10 + (9 - 0)) :=
  ResamplerFilter_symmetric 0 (fun i j => (i * 5 + j : Int)) 1 0 (by decide)
    (by decide) (by decide)

end SDLAudio
